import Mathlib

/-!
# Verification of the dataflow graph execution engine

A shallow embedding of the core of the repository (the graph model and
validator in `core/graph_topology.py`, the spec model in
`core/spec_models.py`, and the trigger-based dataflow executor in
`core/executor.py`), together with theorems settling the claims of the
specification against this embedding.

Modelling conventions:
* Python values travelling along edges are modelled by the inductive `Val`.
* Python `None` is `Option.none` where the code tests `is not None`.
* Python dictionaries keyed by strings are modelled by association lists
  (preserving insertion order, as Python dicts do) or by total functions
  when the code initializes every key up front (the executor's
  `input_queues` and `running` tables).
* A Python exception escaping a function is modelled by `Except`, or by an
  explicit boolean flag when the surrounding code catches it.
* User-supplied node handlers are opaque async generators; a handler
  invocation is modelled by the data it produces: the list of raw items it
  yields and whether it finally raises (`PyHandler`).
-/

namespace DataflowEngine

/-- Runtime values flowing along edges (Python objects, untyped). -/
inductive Val where
  | vInt (n : Int)
  | vStr (s : String)
  | vBool (b : Bool)
  | vFloat (num den : Int)
  | vList (elems : List String)
  deriving DecidableEq, Repr

/-- Nominal type tags used only at edge-validation time
(`InputDef.type` / `OutputDef.type`).  `tyAny` is `typing.Any`, the
universal tag. -/
inductive Ty where
  | tyAny
  | tyInt
  | tyStr
  | tyFloat
  | tyBool
  | tyDict
  | tyOther (tag : String)
  deriving DecidableEq, Repr

/-- `InputDef` from `core/spec_models.py`: per-input description. -/
structure InputDef where
  type : Ty
  init : Option Val := none
  default : Option Val := none
  deriving DecidableEq, Repr

/-- `OutputDef` from `core/spec_models.py`. -/
structure OutputDef where
  type : Ty
  deriving DecidableEq, Repr

/-- `NodeSpec` from `core/spec_models.py`.  `funcName` stands for
`spec.func.__name__`; the handler itself is supplied separately at firing
time (`PyHandler`), since handlers are opaque user code. -/
structure NodeSpec where
  name : String
  inputs : List (String × InputDef)
  outputs : List (String × OutputDef)
  funcName : String
  node_type : String := ""
  deriving DecidableEq, Repr

/-- `EdgeSpec` from `core/spec_models.py`. -/
structure EdgeSpec where
  source_node : String
  source_branch : String
  target_node : String
  target_input : String
  deriving DecidableEq, Repr

/-- An edge of the built multigraph, carrying `src_branch` / `dst_input`
attributes (`build_graph` in `core/graph_topology.py`). -/
structure Edge where
  src : String
  dst : String
  srcBranch : String
  dstInput : String
  deriving DecidableEq, Repr

/-- `TRIGGER_TYPES` from `core/spec_models.py` (the set used by the
executor). -/
def TRIGGER_TYPES : List String :=
  ["terminal_input", "trigger", "chat_trigger", "interface_chat",
   "ui_chat_input", "ui_chat_full", "ui_text_input", "ui_button"]

/-- `OUTPUT_TYPES` from `core/spec_models.py`. -/
def OUTPUT_TYPES : List String := ["terminal_output"]

/-- `LOGGER_TYPES` from `core/spec_models.py`. -/
def LOGGER_TYPES : List String := ["logger"]

/-- `INTERFACE_TYPES` from `core/spec_models.py`. -/
def INTERFACE_TYPES : List String := ["interface_chat"]

/-- `UI_COMPONENT_TYPES` from `core/spec_models.py`. -/
def UI_COMPONENT_TYPES : List String :=
  ["ui_chat_input", "ui_chat_display", "ui_chat_full",
   "ui_text_input", "ui_button", "ui_text_display", "ui_json_display"]

/-- The separate, smaller `TRIGGER_TYPES` constant defined in
`core/graph_topology.py` and used only by `validate_graph`. -/
def TOPOLOGY_TRIGGER_TYPES : List String := ["terminal_input", "trigger"]

/-- `spec.node_type or spec.func.__name__` (`Executor._get_node_type`):
the empty string is falsy in Python, so the function name is the
fallback. -/
def specNodeType (s : NodeSpec) : String :=
  if s.node_type = "" then s.funcName else s.node_type

/-- The executor's graph: a multigraph whose every node carries a
`NodeSpec` (the executor dereferences `graph.nodes[n]["spec"]`
unconditionally, so it is only defined on such graphs).  Lists preserve
networkx insertion order. -/
structure EGraph where
  nodes : List (String × NodeSpec)
  edges : List Edge
  deriving DecidableEq, Repr

namespace EGraph

/-- Spec lookup (`graph.nodes[n]["spec"]`); `none` models the `KeyError`
case, which the executor never guards against. -/
def spec? (g : EGraph) (n : String) : Option NodeSpec :=
  (g.nodes.find? fun p => p.1 == n).map (·.2)

end EGraph

/-- `Executor._get_node_type`.  On a node missing from the graph the
Python code would raise `KeyError`; the `""` branch is unreachable in
every theorem below (all carry a membership hypothesis or use concrete
graphs). -/
def get_node_type (g : EGraph) (n : String) : String :=
  match g.spec? n with
  | some s => specNodeType s
  | none => ""

/-- `Executor._is_trigger`. -/
def is_trigger (g : EGraph) (n : String) : Bool :=
  TRIGGER_TYPES.contains (get_node_type g n)

/-- `Executor._is_interface`. -/
def is_interface (g : EGraph) (n : String) : Bool :=
  INTERFACE_TYPES.contains (get_node_type g n)

/-- `Executor._is_ui_component`. -/
def is_ui_component (g : EGraph) (n : String) : Bool :=
  UI_COMPONENT_TYPES.contains (get_node_type g n)

/-- Mutable executor state for one run: `input_queues`, `running`,
`_stopped`.  The queue table is total: keys the Python dict lacks are
read through `.get` (treated as empty) in the only place an undeclared
key can be consulted (`_downstream_queues_empty`). -/
structure ExecState where
  queues : (String × String) → List Val
  running : String → Nat
  stopped : Bool

/-- `Executor._has_incoming_edge`: some inbound edge of `n` targets
input `i`. -/
def has_incoming_edge (g : EGraph) (n i : String) : Bool :=
  g.edges.any fun e => e.dst == n && e.dstInput == i

/-- `Executor._has_any_incoming_edge` (`in_degree > 0`). -/
def has_any_incoming_edge (g : EGraph) (n : String) : Bool :=
  g.edges.any fun e => e.dst == n

/-- `Executor._all_inputs_ready`: connected inputs must have queued data;
unconnected inputs may fall back to a non-`None` default. -/
def all_inputs_ready (g : EGraph) (st : ExecState) (n : String) : Bool :=
  match g.spec? n with
  | none => true
  | some s =>
    s.inputs.all fun p =>
      let hasQueued := !(st.queues (n, p.1)).isEmpty
      let isConnected := has_incoming_edge g n p.1
      let hasDefault := p.2.default.isSome
      if isConnected then hasQueued else hasQueued || hasDefault

/-- `Executor._downstream_queues_empty`: every queue fed by an out-edge of
`n` is empty.  The code skips edges whose `dst_input` attribute is falsy
(the empty string) and reads absent queues through `.get` (absent =
empty, covered by the total queue table). -/
def downstream_queues_empty (g : EGraph) (st : ExecState) (n : String) : Bool :=
  g.edges.all fun e =>
    if e.src == n then
      if e.dstInput ≠ "" then (st.queues (e.dst, e.dstInput)).isEmpty else true
    else true

/-- `Executor._is_ready`: the readiness predicate. -/
def is_ready (g : EGraph) (st : ExecState) (n : String) : Bool :=
  if st.running n > 0 then false
  else if is_trigger g n then false
  else if !has_any_incoming_edge g n && !downstream_queues_empty g st n then false
  else all_inputs_ready g st n

/-- `Executor._get_ready_nodes`: nodes scanned in graph insertion
order. -/
def get_ready_nodes (g : EGraph) (st : ExecState) : List String :=
  (g.nodes.map (·.1)).filter fun n => is_ready g st n

/-- Pointwise queue-table update. -/
def setQueue (qs : (String × String) → List Val) (k : String × String)
    (v : List Val) : (String × String) → List Val :=
  fun k' => if k' = k then v else qs k'

/-- `Executor._pop_inputs`: pop one value from each input queue, falling
back to the input's default (possibly `None`).  Returns the keyword
argument map in declaration order and the updated queue table. -/
def pop_inputs (g : EGraph) (qs : (String × String) → List Val) (n : String) :
    List (String × Option Val) × ((String × String) → List Val) :=
  match g.spec? n with
  | none => ([], qs)
  | some s =>
    s.inputs.foldl
      (fun acc p =>
        match qs (n, p.1) with
        | [] => (acc.1 ++ [(p.1, p.2.default)], acc.2)
        | v :: rest => (acc.1 ++ [(p.1, some v)], setQueue acc.2 (n, p.1) rest))
      ([], qs)

/-- Observer events (`Executor._notify` calls).  Payload dictionaries are
flattened into constructor arguments; the free-text `error` message of
`node_error` is not modelled. -/
inductive Event where
  | nodeStart (n ty : String)
  | nodeOutput (n branch : String) (v : Val)
  | nodeError (n : String)
  | nodeDone (n : String)
  | terminalOutput (n : String) (v : Val)
  | logEvent (n : String) (v : Val)
  | uiUpdate (target input : String) (v : Val)
  | interfaceDisplay (target : String) (chatId : Option Val) (input : String) (v : Val)
  deriving DecidableEq, Repr

/-- The `chat_id` payload computed in `Executor._route_output` for legacy
interface targets: the `chat_id` input's default when that input is
declared, else the literal string `"default"`. -/
def chatIdValue (s : NodeSpec) : Option Val :=
  match s.inputs.find? fun p => p.1 == "chat_id" with
  | some p => p.2.default
  | none => some (Val.vStr "default")

/-- `get_downstream` from `core/graph_topology.py`: the `(target_node,
target_input)` pairs of the out-edges of `n` carrying branch `branch`,
one entry per parallel edge. -/
def get_downstream (g : EGraph) (n branch : String) : List (String × String) :=
  (g.edges.filter fun e => e.src == n && e.srcBranch == branch).map
    fun e => (e.dst, e.dstInput)

/-- The event `Executor._route_output` emits after appending to one
target's queue: `ui_update` for UI components, `interface_display` for
legacy interfaces, nothing otherwise. -/
def routeTargetEvents (g : EGraph) (target input : String) (v : Val) : List Event :=
  if is_ui_component g target then
    [Event.uiUpdate target input v]
  else if is_interface g target then
    [Event.interfaceDisplay target
      ((g.spec? target).bind chatIdValue) input v]
  else []

/-- The out-edges `Executor._route_output` iterates for node `n` and
branch `branch` (cf. `get_downstream`), tagged with their position in the
graph's edge list so parallel edges stay distinguishable. -/
def routeHits (g : EGraph) (n branch : String) : List (Nat × Edge) :=
  g.edges.enum.filter fun p => p.2.src == n && p.2.srcBranch == branch

/-- `Executor._route_output`, instrumented: routes `v` yielded by `n` on
`branch` to every matching out-edge in edge order, appending to the
target queue and emitting UI events.  The loop's three effects are given
componentwise (queue updates in edge order / events in edge order /
delivery log `(edge index, value)` in append order); they touch disjoint
state, so this is the same function the interleaved Python loop
computes. -/
def route_output (g : EGraph) (qs : (String × String) → List Val)
    (n branch : String) (v : Val) :
    ((String × String) → List Val) × List Event × List (Nat × Val) :=
  ((routeHits g n branch).foldl
     (fun q p => setQueue q (p.2.dst, p.2.dstInput) (q (p.2.dst, p.2.dstInput) ++ [v]))
     qs,
   (routeHits g n branch).flatMap fun p => routeTargetEvents g p.2.dst p.2.dstInput v,
   (routeHits g n branch).map fun p => (p.1, v))

/-- `Executor._handle_output`: emit sink events and the unconditional
`node_output`, then route the value downstream.  (`_schedule_ready`,
which this method also invokes, mutates no queue and is modelled as a
separate scheduler step.) -/
def handle_output (g : EGraph) (qs : (String × String) → List Val)
    (nodeType n branch : String) (v : Val) :
    ((String × String) → List Val) × List Event × List (Nat × Val) :=
  let sinkEvents :=
    (if OUTPUT_TYPES.contains nodeType then [Event.terminalOutput n v] else []) ++
    (if LOGGER_TYPES.contains nodeType then [Event.logEvent n v] else [])
  let routed := route_output g qs n branch v
  (routed.1, sinkEvents ++ [Event.nodeOutput n branch v] ++ routed.2.1, routed.2.2)

/-- One raw item yielded by a handler, classified by tuple arity: the
executor's `async for branch, value in spec.func(...)` destructures each
item into exactly two names. -/
inductive RawItem where
  | pair (branch : String) (v : Val)
  | triple (branch : String) (v : Val) (tag : Val)
  | otherShape (vals : List Val)
  deriving DecidableEq, Repr

/-- The two-name tuple unpacking `branch, value = item` performed by the
`async for` loop header: any arity other than two raises `ValueError`
(modelled as `none`). -/
def unpack2 : RawItem → Option (String × Val)
  | RawItem.pair b v => some (b, v)
  | _ => none

/-- The observable behaviour of one handler invocation.  `agen` is an
async generator that yields `items` and then either finishes or raises;
`coroutine` and `syncFn` are the one-shot-async and plain-function
shapes, over which `async for` raises `TypeError` immediately. -/
inductive PyHandler where
  | agen (items : List RawItem) (raises : Bool)
  | coroutine
  | syncFn
  deriving DecidableEq, Repr

/-- Destructure yielded items until the first unpacking failure; the
second component reports whether an exception interrupted the loop. -/
def unpackPrefix : List RawItem → List (String × Val) × Bool
  | [] => ([], false)
  | it :: rest =>
    match unpack2 it with
    | none => ([], true)
    | some p =>
      let tail := unpackPrefix rest
      (p :: tail.1, tail.2)

/-- Items successfully consumed from the handler and whether the
`try` block of `Executor._run_node` ends in an exception. -/
def handlerOutcome : PyHandler → List (String × Val) × Bool
  | PyHandler.agen items raises =>
    let u := unpackPrefix items
    (u.1, u.2 || raises)
  | PyHandler.coroutine => ([], true)
  | PyHandler.syncFn => ([], true)

/-- Process the consumed `(branch, value)` items in yield order, each
through `handle_output`, threading the queue table and collecting events
and deliveries in emission order. -/
def processItems (g : EGraph) (nodeType n : String) :
    ((String × String) → List Val) → List (String × Val) →
    ((String × String) → List Val) × List Event × List (Nat × Val)
  | qs, [] => (qs, [], [])
  | qs, it :: rest =>
    let h := handle_output g qs nodeType n it.1 it.2
    let r := processItems g nodeType n h.1 rest
    (r.1, h.2.1 ++ r.2.1, h.2.2 ++ r.2.2)

/-- Result of one firing: the executor state it leaves, the events it
emits in order, and its delivery log `(edge index, value)`. -/
structure FireOut where
  state : ExecState
  events : List Event
  deliveries : List (Nat × Val)

/-- `Executor._run_node`: the body of one scheduled firing.  The firing's
`running` slot was already incremented by `_schedule_ready`; the body
pops one value per input, emits `node_start`, streams the handler through
`_handle_output`, emits `node_error` if an exception escapes the loop,
and finally decrements `running` and emits `node_done`. -/
def run_node (g : EGraph) (st : ExecState) (n : String) (h : PyHandler) : FireOut :=
  let nodeType := get_node_type g n
  let popped := pop_inputs g st.queues n
  let outcome := handlerOutcome h
  let processed := processItems g nodeType n popped.2 outcome.1
  { state :=
      { queues := processed.1
        running := fun m => if m = n then st.running n - 1 else st.running m
        stopped := st.stopped }
    events :=
      [Event.nodeStart n nodeType] ++ processed.2.1 ++
      (if outcome.2 then [Event.nodeError n] else []) ++ [Event.nodeDone n]
    deliveries := processed.2.2 }

/-- Result of `Executor.fire_trigger`: final state, emitted events,
delivery log, and whether the call raised `ValueError` (non-trigger
node). -/
structure TriggerOut where
  state : ExecState
  events : List Event
  deliveries : List (Nat × Val)
  raisedValueError : Bool

/-- `Executor.fire_trigger`: raises `ValueError` on non-trigger nodes;
returns silently when stopped; otherwise increments `running`, streams
the handler (called with the fired value) exactly as `_run_node` does but
without popping input queues, and finally decrements `running`.  The
handler's behaviour on the fired value is the `h` argument. -/
def fire_trigger (g : EGraph) (st : ExecState) (n : String) (h : PyHandler) :
    TriggerOut :=
  if !is_trigger g n then
    { state := st, events := [], deliveries := [], raisedValueError := true }
  else if st.stopped then
    { state := st, events := [], deliveries := [], raisedValueError := false }
  else
    let nodeType := get_node_type g n
    let outcome := handlerOutcome h
    let processed := processItems g nodeType n st.queues outcome.1
    { state :=
        { queues := processed.1
          running := fun m => if m = n then st.running n + 1 - 1 else st.running m
          stopped := st.stopped }
      events :=
        [Event.nodeStart n nodeType] ++ processed.2.1 ++
        (if outcome.2 then [Event.nodeError n] else []) ++ [Event.nodeDone n]
      deliveries := processed.2.2
      raisedValueError := false }

/-- `Executor._init_queues` followed by `Executor._inject_inits`, as the
queue table they leave behind: every declared input of a non-trigger node
with an `init` holds that single value; every other queue is empty.
`run()` performs exactly these two steps before scheduling — it takes no
entry-bindings argument. -/
def inject_inits (g : EGraph) : (String × String) → List Val := fun k =>
  match g.spec? k.1 with
  | none => []
  | some s =>
    if TRIGGER_TYPES.contains (specNodeType s) then []
    else
      match s.inputs.find? fun p => p.1 == k.2 with
      | some p => match p.2.init with | some v => [v] | none => []
      | none => []

/-- The executor state `Executor.run` establishes before its initial
scheduling pass. -/
def initExecState (g : EGraph) : ExecState :=
  { queues := inject_inits g, running := fun _ => 0, stopped := false }

/-- Modelled from the spec: the entry-bindings injection that §4.2.5 and
§6 say `run()` performs ("Apply any caller-supplied entry bindings:
enqueue each value", after init injection and before scheduling).  This
step is absent from `Executor.run` in `core/executor.py`, which takes no
entry-bindings parameter; `examples/demo.py` nevertheless calls
`executor.run(entry_bindings)`. -/
def runInitQueuesSpec (g : EGraph) (eb : List ((String × String) × Val)) :
    (String × String) → List Val := fun k =>
  inject_inits g k ++ (eb.filter fun p => p.1 == k).map (·.2)

/-!
## Interleaved-run model

`run()` executes firings as tasks of a cooperative (single-threaded
asyncio) task group: code between `await` points is atomic.  `SysStep`
captures the atomic segments that mutate the shared tables:

* `schedule` — one call of `_schedule_ready` (lines 209-219): the ready
  scan, the `running` increments and the `start_soon` calls form one
  synchronous block, so they are a single step.  The relation lets this
  step occur at any time (the code invokes it at run start, after every
  routing step and after every `node_done`) — a superset of behaviours,
  sound for invariants.
* `triggerStart` — the unguarded `self.running[node_id] += 1` of
  `fire_trigger` (line 235); the subsequent handler iteration contains
  `await` points, so two `fire_trigger` calls may both perform this step
  before either finishes (the repository's own test fires the same
  trigger concurrently via `asyncio.gather`).
* `taskPop` / `taskRoute` — the queue mutations a running firing performs.
* `taskFinish` — the `finally:` decrement of `_run_node` (line 193) or of
  `fire_trigger` (line 246), removing the firing from flight.
* `stopFlag` — `Executor.stop()`.

`tasks` lists the node names of in-flight firings (scheduled tasks and
trigger firings). -/

/-- Shared executor state plus the multiset of in-flight firings. -/
structure SysState where
  exec : ExecState
  tasks : List String

/-- One atomic `_schedule_ready` call: increment `running` of every ready
node and hand each to the task group, unless stopped. -/
def schedule_ready (g : EGraph) (s : SysState) : SysState :=
  if s.exec.stopped then s
  else
    let ready := get_ready_nodes g s.exec
    { exec :=
        { s.exec with
          running := fun m =>
            if m ∈ ready then s.exec.running m + 1 else s.exec.running m }
      tasks := s.tasks ++ ready }

/-- Atomic steps of the executor's shared-state mutation. -/
inductive SysStep (g : EGraph) : SysState → SysState → Prop where
  | schedule (s : SysState) : SysStep g s (schedule_ready g s)
  | triggerStart (s : SysState) (n : String) :
      is_trigger g n = true → s.exec.stopped = false →
      SysStep g s
        ⟨{ s.exec with
           running := fun m =>
             if m = n then s.exec.running m + 1 else s.exec.running m },
         s.tasks ++ [n]⟩
  | taskPop (s : SysState) (n : String) :
      n ∈ s.tasks →
      SysStep g s ⟨{ s.exec with queues := (pop_inputs g s.exec.queues n).2 }, s.tasks⟩
  | taskRoute (s : SysState) (n branch : String) (v : Val) :
      n ∈ s.tasks →
      SysStep g s
        ⟨{ s.exec with queues := (route_output g s.exec.queues n branch v).1 }, s.tasks⟩
  | taskFinish (s : SysState) (n : String) :
      n ∈ s.tasks →
      SysStep g s
        ⟨{ s.exec with
           running := fun m =>
             if m = n then s.exec.running m - 1 else s.exec.running m },
         s.tasks.erase n⟩
  | stopFlag (s : SysState) :
      SysStep g s ⟨{ s.exec with stopped := true }, s.tasks⟩

/-- States a run can reach from the post-initialization state. -/
def Reachable (g : EGraph) (s : SysState) : Prop :=
  Relation.ReflTransGen (SysStep g) ⟨initExecState g, []⟩ s

/-- The state change of `fire_trigger`'s unguarded
`self.running[node_id] += 1` (line 235 of `core/executor.py`): the target
of `SysStep.triggerStart`, written as a function so overlapping
`fire_trigger` calls can be chained explicitly. -/
def triggerBump (s : SysState) (n : String) : SysState :=
  ⟨{ s.exec with
     running := fun m => if m = n then s.exec.running m + 1 else s.exec.running m },
   s.tasks ++ [n]⟩

/-!
## Graph builder and validator (`core/graph_topology.py`)

`build_graph` adds edges with `g.add_edge`, and networkx silently
auto-creates endpoint nodes that were not in the node list — such nodes
exist but carry no `"spec"` attribute, so `validate_graph`'s
`g.nodes[u]["spec"]` raises `KeyError` on them.  `BGraph` therefore maps
each node name to an optional spec, and the validator runs in `Except`. -/

/-- A built graph: nodes may lack a spec (auto-added edge endpoints). -/
structure BGraph where
  nodes : List (String × Option NodeSpec)
  edges : List Edge
  deriving DecidableEq, Repr

namespace BGraph

/-- `g.nodes[n]["spec"]`: `none` models the `KeyError`. -/
def spec? (g : BGraph) (n : String) : Option NodeSpec :=
  (g.nodes.find? fun p => p.1 == n).bind (·.2)

end BGraph

/-- networkx `add_edge` auto-adds missing endpoint nodes (without
attributes); adding an existing node is a no-op. -/
def addNodeIfAbsent (ns : List (String × Option NodeSpec)) (name : String) :
    List (String × Option NodeSpec) :=
  if ns.any fun p => p.1 == name then ns else ns ++ [(name, none)]

/-- `build_graph` from `core/graph_topology.py`. -/
def build_graph (nodes : List NodeSpec) (edges : List EdgeSpec) : BGraph :=
  { nodes :=
      edges.foldl
        (fun acc e => addNodeIfAbsent (addNodeIfAbsent acc e.source_node) e.target_node)
        (nodes.map fun s => (s.name, some s))
    edges := edges.map fun e =>
      { src := e.source_node, dst := e.target_node,
        srcBranch := e.source_branch, dstInput := e.target_input } }

/-- Validation findings.  The Python code appends human-readable strings;
the constructors carry the same data the formatted strings carry. -/
inductive VErr where
  | branchMissing (u v branch : String)
  | inputMissing (u v inp : String)
  | typeMismatch (u v : String) (srcTy dstTy : Ty)
  | noSource (n inp : String)
  | cycleNoStarter (scc : List String)
  deriving DecidableEq, Repr

/-- The per-edge checks of `validate_graph`, in code order: source-branch
existence, then target-input existence, then type compatibility — each
`continue`s past the rest, so an edge contributes at most one error. -/
def checkEdge (srcSpec dstSpec : NodeSpec) (e : Edge) : Option VErr :=
  if !(srcSpec.outputs.any fun p => p.1 == e.srcBranch) then
    some (VErr.branchMissing e.src e.dst e.srcBranch)
  else if !(dstSpec.inputs.any fun p => p.1 == e.dstInput) then
    some (VErr.inputMissing e.src e.dst e.dstInput)
  else
    let srcTy := (((srcSpec.outputs.find? fun p => p.1 == e.srcBranch).map
      (fun p => p.2.type)).getD Ty.tyAny)
    let dstTy := (((dstSpec.inputs.find? fun p => p.1 == e.dstInput).map
      (fun p => p.2.type)).getD Ty.tyAny)
    if srcTy ≠ dstTy ∧ srcTy ≠ Ty.tyAny ∧ dstTy ≠ Ty.tyAny then
      some (VErr.typeMismatch e.src e.dst srcTy dstTy)
    else none

/-- The edge loop of `validate_graph`, one iteration per edge in order:
accumulates per-edge errors, raising (`.error`) at the first endpoint
whose node has no spec. -/
def validateEdgesGo (g : BGraph) : List Edge → List VErr → Except Unit (List VErr)
  | [], errs => Except.ok errs
  | e :: rest, errs =>
    match g.spec? e.src, g.spec? e.dst with
    | some ss, some ds =>
      match checkEdge ss ds e with
      | some err => validateEdgesGo g rest (errs ++ [err])
      | none => validateEdgesGo g rest errs
    | _, _ => Except.error ()

/-- The edge loop of `validate_graph` over all edges. -/
def validateEdges (g : BGraph) : Except Unit (List VErr) :=
  validateEdgesGo g g.edges []

/-- The input-coverage findings for one node (the validator skips nodes
whose type is in the topology module's own `TRIGGER_TYPES`). -/
def coverageErrorsForNode (g : BGraph) (eb : List (String × String))
    (n : String) (s : NodeSpec) : List VErr :=
  if TOPOLOGY_TRIGGER_TYPES.contains (specNodeType s) then []
  else
    s.inputs.filterMap fun p =>
      let edgeCount := (g.edges.filter fun e => e.dst == n && e.dstInput == p.1).length
      let hasEntry := eb.contains (n, p.1)
      if edgeCount == 0 && !(hasEntry || p.2.init.isSome || p.2.default.isSome) then
        some (VErr.noSource n p.1)
      else none

/-- The input-coverage loop of `validate_graph`, one iteration per node in
insertion order; a node without a spec raises. -/
def validateCoverageGo (g : BGraph) (eb : List (String × String)) :
    List (String × Option NodeSpec) → List VErr → Except Unit (List VErr)
  | [], errs => Except.ok errs
  | p :: rest, errs =>
    match p.2 with
    | some s => validateCoverageGo g eb rest (errs ++ coverageErrorsForNode g eb p.1 s)
    | none => Except.error ()

/-- The input-coverage loop of `validate_graph` over all nodes. -/
def validateCoverage (g : BGraph) (eb : List (String × String)) :
    Except Unit (List VErr) :=
  validateCoverageGo g eb g.nodes []

/-- Node names of a built graph, in insertion order. -/
def nodeNamesB (g : BGraph) : List String := g.nodes.map (·.1)

/-- One breadth-first expansion: add every one-hop successor of the
visited set. -/
def reachStep (g : BGraph) (visited : List String) : List String :=
  visited ++
    (g.edges.filter fun e => visited.contains e.src && !visited.contains e.dst).map (·.dst)

/-- Iterated expansion with enough fuel to exhaust the graph. -/
def reachIter (g : BGraph) : Nat → List String → List String
  | 0, vs => vs
  | k + 1, vs => reachIter g k (reachStep g vs)

/-- `u` reaches `v` by a directed path (length ≥ 0). -/
def reaches (g : BGraph) (u v : String) : Bool :=
  (reachIter g (g.nodes.length + 1) [u]).contains v

/-- The strongly connected component of `n`: all nodes mutually reachable
with it (what `networkx.strongly_connected_components` enumerates). -/
def sccOf (g : BGraph) (n : String) : List String :=
  (nodeNamesB g).filter fun m => reaches g n m && reaches g m n

/-- One representative (the first member in node insertion order) per
strongly connected component. -/
def sccReps (g : BGraph) : List String :=
  (nodeNamesB g).filter fun n => (sccOf g n).head? == some n

/-- Whether some member of the component has an input with an `init` or
an entry binding (the `has_starter` scan, which breaks at the first
starter; spec access can raise). -/
def sccHasStarter (g : BGraph) (eb : List (String × String)) :
    List String → Except Unit Bool
  | [] => Except.ok false
  | n :: rest =>
    match g.spec? n with
    | some s =>
      if s.inputs.any fun p => p.2.init.isSome || eb.contains (n, p.1) then Except.ok true
      else sccHasStarter g eb rest
    | none => Except.error ()

/-- The cycle-starter loop of `validate_graph`, one iteration per
component: every strongly connected component of size ≥ 2 must contain a
starter. -/
def validateCyclesGo (g : BGraph) (eb : List (String × String)) :
    List String → List VErr → Except Unit (List VErr)
  | [], errs => Except.ok errs
  | n :: rest, errs =>
    let scc := sccOf g n
    if scc.length ≤ 1 then validateCyclesGo g eb rest errs
    else
      match sccHasStarter g eb scc with
      | Except.ok true => validateCyclesGo g eb rest errs
      | Except.ok false => validateCyclesGo g eb rest (errs ++ [VErr.cycleNoStarter scc])
      | Except.error () => Except.error ()

/-- The cycle-starter loop of `validate_graph` over all components. -/
def validateCycles (g : BGraph) (eb : List (String × String)) :
    Except Unit (List VErr) :=
  validateCyclesGo g eb (sccReps g) []

/-- `validate_graph` from `core/graph_topology.py`: the edge checks, then
input coverage, then cycle starters, with errors accumulated in that
order; `.error ()` models an escaping `KeyError`. -/
def validate_graph (g : BGraph) (eb : List (String × String)) :
    Except Unit (List VErr) := do
  let e1 ← validateEdges g
  let e2 ← validateCoverage g eb
  let e3 ← validateCycles g eb
  Except.ok (e1 ++ e2 ++ e3)

/-!
## Derived views and concrete instances used by the theorems
-/

/-- Modelled from the spec: the handler-adapter normalization of §4.3,
which is absent from `Executor._run_node` in `core/executor.py` — "Two-element
items `(branch, value)` are the canonical form; three-element items
carrying a trailing tag are accepted for backward compatibility and the
tag is discarded." -/
def adaptItem : RawItem → Option (String × Val)
  | RawItem.pair b v => some (b, v)
  | RawItem.triple b v _ => some (b, v)
  | RawItem.otherShape _ => none

/-- The events `_handle_output` emits for one consumed item (sink events,
the unconditional `node_output`, then the routing events), as a function
of the item alone. -/
def itemEvents (g : EGraph) (ty n : String) (it : String × Val) : List Event :=
  ((if OUTPUT_TYPES.contains ty then [Event.terminalOutput n it.2] else []) ++
   (if LOGGER_TYPES.contains ty then [Event.logEvent n it.2] else [])) ++
  [Event.nodeOutput n it.1 it.2] ++
  ((routeHits g n it.1).flatMap fun p => routeTargetEvents g p.2.dst p.2.dstInput it.2)

/-- The delivery log `(edge index, value)` of routing one consumed
item. -/
def itemDeliveries (g : EGraph) (n : String) (it : String × Val) : List (Nat × Val) :=
  (routeHits g n it.1).map fun p => (p.1, it.2)

/-- The delivery log of one whole firing that consumed `items`. -/
def firingDeliveries (g : EGraph) (n : String) (items : List (String × Val)) :
    List (Nat × Val) :=
  items.flatMap (itemDeliveries g n)

/-- The subsequence of a delivery log that travelled over the edge at
position `k` of the graph's edge list, in delivery order. -/
def deliveriesVia (k : Nat) (log : List (Nat × Val)) : List Val :=
  log.filterMap fun p => if p.1 = k then some p.2 else none

/-- The values a firing that consumed `items` appends to the queue
`(t, i)`, in append order (across all edges feeding that queue). -/
def deliveredValuesTo (g : EGraph) (n : String) (items : List (String × Val))
    (t i : String) : List Val :=
  items.flatMap fun it =>
    ((routeHits g n it.1).filter fun p => p.2.dst == t && p.2.dstInput == i).map
      fun _ => it.2

/-- Classifier: a `node_start` event of node `n`. -/
def isStartOf (n : String) : Event → Bool
  | Event.nodeStart m _ => m == n
  | _ => false

/-- Classifier: a `node_done` event of node `n`. -/
def isDoneOf (n : String) : Event → Bool
  | Event.nodeDone m => m == n
  | _ => false

/-- Classifier: a `node_error` event of node `n`. -/
def isErrorOf (n : String) : Event → Bool
  | Event.nodeError m => m == n
  | _ => false

/-- The inductive invariant behind per-node serialization: `running`
counts the in-flight firings of each node, and non-trigger nodes never
have more than one in flight. -/
def RunningInv (g : EGraph) (s : SysState) : Prop :=
  (∀ n, s.exec.running n = s.tasks.count n) ∧
  ∀ n, is_trigger g n = false → s.tasks.count n ≤ 1

/-- An `int`-typed input with neither init nor default. -/
def tyIntIn : InputDef := { type := Ty.tyInt }

/-- A plain non-trigger node with input `value` and output branch
`out` (like the repository's `double` with its branch renamed). -/
def uSpec : NodeSpec :=
  { name := "u", inputs := [("value", tyIntIn)],
    outputs := [("out", { type := Ty.tyInt })], funcName := "double" }

/-- A sink node with the single input `value` and no outputs. -/
def vSpec : NodeSpec :=
  { name := "v", inputs := [("value", tyIntIn)], outputs := [], funcName := "sink" }

/-- Two-node graph `u --out/value--> v`. -/
def gPair : EGraph :=
  { nodes := [("u", uSpec), ("v", vSpec)],
    edges := [{ src := "u", dst := "v", srcBranch := "out", dstInput := "value" }] }

/-- A `terminal_input` trigger node. -/
def trigSpec : NodeSpec :=
  { name := "t", inputs := [("value", tyIntIn)],
    outputs := [("out", { type := Ty.tyInt })],
    funcName := "terminal_input", node_type := "terminal_input" }

/-- A graph holding a single trigger node, as driven by
`fire_trigger`. -/
def gTrig : EGraph := { nodes := [("t", trigSpec)], edges := [] }

/-- The same graph as built by `build_graph` (it validates cleanly). -/
def gTrigB : BGraph := build_graph [trigSpec] []

/-- A constant-style node named as in `examples/demo.py`
(`("const-1", "value")` is the entry binding the demo passes to
`run`). -/
def constSpec : NodeSpec :=
  { name := "const-1", inputs := [("value", tyIntIn)],
    outputs := [("out", { type := Ty.tyInt })], funcName := "constant" }

/-- Graph holding the demo's constant node. -/
def gConst : EGraph := { nodes := [("const-1", constSpec)], edges := [] }

/-- An edge whose target node is not among the given nodes. -/
def ghostEdge : EdgeSpec :=
  { source_node := "u", source_branch := "out",
    target_node := "ghost", target_input := "value" }

/-- `build_graph` on a node list that does not contain the edge's target:
networkx auto-adds node `"ghost"` without a spec. -/
def gMissing : BGraph := build_graph [uSpec] [ghostEdge]

/-- The `u --out/value--> v` graph as an `EdgeSpec`. -/
def uvEdgeSpec : EdgeSpec :=
  { source_node := "u", source_branch := "out",
    target_node := "v", target_input := "value" }

/-- The two-node graph as built and validated. -/
def gPairB : BGraph := build_graph [uSpec, vSpec] [uvEdgeSpec]

/-- Claim C1 as stated, at the (valid) single-trigger graph: at every
point of any run, every node's `running` counter is 0 or 1 — including
trigger nodes fired via `fire_trigger`. -/
def claimC1 : Prop :=
  ∀ s, Reachable gTrig s → ∀ n, s.exec.running n = 0 ∨ s.exec.running n = 1

/-- Claim C3 as stated: a firing whose handler raises appends no value to
any downstream input queue. -/
def claimC3 : Prop :=
  ∀ (g : EGraph) (st : ExecState) (n : String) (h : PyHandler),
    (handlerOutcome h).2 = true → (run_node g st n h).deliveries = []

/-- Claim C6 as stated: for terminal-output and logger nodes no
`node_output` event is emitted for an item (only the sink event). -/
def claimC6 : Prop :=
  ∀ (g : EGraph) (qs : (String × String) → List Val) (ty n b : String) (v : Val),
    (OUTPUT_TYPES.contains ty || LOGGER_TYPES.contains ty) = true →
    Event.nodeOutput n b v ∉ (handle_output g qs ty n b v).2.1

/-- Claim C9 as stated (the never-raises part): `validate_graph` always
returns a list of errors, for every built graph. -/
def claimC9 : Prop :=
  ∀ (nodes : List NodeSpec) (edges : List EdgeSpec) (eb : List (String × String)),
    ∃ errs, validate_graph (build_graph nodes edges) eb = Except.ok errs

/-!
## Supporting lemmas
-/

theorem handle_output_events_eq (g : EGraph) (qs : (String × String) → List Val)
    (ty n b : String) (v : Val) :
    (handle_output g qs ty n b v).2.1 = itemEvents g ty n (b, v) := rfl

theorem handle_output_deliveries_eq (g : EGraph) (qs : (String × String) → List Val)
    (ty n b : String) (v : Val) :
    (handle_output g qs ty n b v).2.2 = itemDeliveries g n (b, v) := rfl

theorem handle_output_queues_eq (g : EGraph) (qs : (String × String) → List Val)
    (ty n b : String) (v : Val) :
    (handle_output g qs ty n b v).1 = (route_output g qs n b v).1 := rfl

theorem foldAppend_queue (v : Val) (hits : List (Nat × Edge)) :
    ∀ (q : (String × String) → List Val) (t i : String),
      (hits.foldl
        (fun q p => setQueue q (p.2.dst, p.2.dstInput) (q (p.2.dst, p.2.dstInput) ++ [v]))
        q) (t, i) =
      q (t, i) ++
        ((hits.filter fun p => p.2.dst == t && p.2.dstInput == i).map fun _ => v) := by
  induction hits with
  | nil => intro q t i; simp
  | cons p rest ih =>
    intro q t i
    simp only [List.foldl_cons, List.filter_cons]
    by_cases hm : p.2.dst = t ∧ p.2.dstInput = i
    · have hb : (p.2.dst == t && p.2.dstInput == i) = true := by
        simp [hm.1, hm.2]
      rw [ih]
      have hq : setQueue q (p.2.dst, p.2.dstInput)
          (q (p.2.dst, p.2.dstInput) ++ [v]) (t, i) = q (t, i) ++ [v] := by
        simp [setQueue, hm.1, hm.2]
      rw [hq, hb]
      simp
    · have hb : (p.2.dst == t && p.2.dstInput == i) = false := by
        rcases Decidable.not_and_iff_or_not.mp hm with h | h <;> simp [h]
      have hq : setQueue q (p.2.dst, p.2.dstInput)
          (q (p.2.dst, p.2.dstInput) ++ [v]) (t, i) = q (t, i) := by
        have : ((t, i) : String × String) ≠ (p.2.dst, p.2.dstInput) := by
          intro hcontra
          exact hm ⟨(Prod.mk.injEq _ _ _ _ ▸ hcontra).1.symm,
                    (Prod.mk.injEq _ _ _ _ ▸ hcontra).2.symm⟩
        simp [setQueue, this]
      rw [ih, hq, hb]
      simp

theorem route_output_queues (g : EGraph) (qs : (String × String) → List Val)
    (n branch : String) (v : Val) (t i : String) :
    (route_output g qs n branch v).1 (t, i) =
      qs (t, i) ++
        (((routeHits g n branch).filter fun p => p.2.dst == t && p.2.dstInput == i).map
          fun _ => v) :=
  foldAppend_queue v (routeHits g n branch) qs t i

theorem processItems_nil (g : EGraph) (ty n : String)
    (qs : (String × String) → List Val) :
    processItems g ty n qs [] = (qs, [], []) := rfl

theorem processItems_cons (g : EGraph) (ty n : String) (it : String × Val)
    (rest : List (String × Val)) (qs : (String × String) → List Val) :
    processItems g ty n qs (it :: rest) =
      ((processItems g ty n (handle_output g qs ty n it.1 it.2).1 rest).1,
       itemEvents g ty n it ++
         (processItems g ty n (handle_output g qs ty n it.1 it.2).1 rest).2.1,
       itemDeliveries g n it ++
         (processItems g ty n (handle_output g qs ty n it.1 it.2).1 rest).2.2) := rfl

theorem processItems_events (g : EGraph) (ty n : String) (items : List (String × Val)) :
    ∀ qs, (processItems g ty n qs items).2.1 = items.flatMap (itemEvents g ty n) := by
  induction items with
  | nil => intro qs; simp [processItems_nil]
  | cons it rest ih => intro qs; rw [processItems_cons]; simp [ih]

theorem processItems_deliveries (g : EGraph) (ty n : String) (items : List (String × Val)) :
    ∀ qs, (processItems g ty n qs items).2.2 = firingDeliveries g n items := by
  induction items with
  | nil => intro qs; simp [processItems_nil, firingDeliveries]
  | cons it rest ih => intro qs; rw [processItems_cons]; simp [ih, firingDeliveries]

theorem processItems_queues (g : EGraph) (ty n : String) (items : List (String × Val)) :
    ∀ qs t i, (processItems g ty n qs items).1 (t, i) =
      qs (t, i) ++ deliveredValuesTo g n items t i := by
  induction items with
  | nil => intro qs t i; simp [processItems_nil, deliveredValuesTo]
  | cons it rest ih =>
    intro qs t i
    rw [processItems_cons]
    simp only [ih, handle_output_queues_eq, route_output_queues]
    simp [deliveredValuesTo, List.append_assoc]

theorem run_node_events (g : EGraph) (st : ExecState) (n : String) (h : PyHandler) :
    (run_node g st n h).events =
      Event.nodeStart n (get_node_type g n) ::
        ((handlerOutcome h).1.flatMap (itemEvents g (get_node_type g n) n) ++
         (if (handlerOutcome h).2 then [Event.nodeError n] else []) ++
         [Event.nodeDone n]) := by
  simp [run_node, processItems_events, List.append_assoc]

theorem run_node_deliveries (g : EGraph) (st : ExecState) (n : String) (h : PyHandler) :
    (run_node g st n h).deliveries = firingDeliveries g n (handlerOutcome h).1 := by
  simp [run_node, processItems_deliveries]

theorem run_node_queues (g : EGraph) (st : ExecState) (n : String) (h : PyHandler)
    (t i : String) :
    (run_node g st n h).state.queues (t, i) =
      (pop_inputs g st.queues n).2 (t, i) ++
        deliveredValuesTo g n (handlerOutcome h).1 t i := by
  simp [run_node, processItems_queues]

theorem run_node_running (g : EGraph) (st : ExecState) (n : String) (h : PyHandler)
    (m : String) :
    (run_node g st n h).state.running m =
      if m = n then st.running n - 1 else st.running m := rfl

theorem fire_trigger_events (g : EGraph) (st : ExecState) (n : String) (h : PyHandler)
    (ht : is_trigger g n = true) (hs : st.stopped = false) :
    (fire_trigger g st n h).events =
      Event.nodeStart n (get_node_type g n) ::
        ((handlerOutcome h).1.flatMap (itemEvents g (get_node_type g n) n) ++
         (if (handlerOutcome h).2 then [Event.nodeError n] else []) ++
         [Event.nodeDone n]) := by
  simp [fire_trigger, ht, hs, processItems_events, List.append_assoc]

theorem routeTargetEvents_shape (g : EGraph) (t i : String) (v : Val) :
    ∀ ev ∈ routeTargetEvents g t i v,
      (∃ a b c, ev = Event.uiUpdate a b c) ∨
      ∃ a b c d, ev = Event.interfaceDisplay a b c d := by
  intro ev hev
  by_cases hui : is_ui_component g t
  · simp [routeTargetEvents, hui] at hev
    exact Or.inl ⟨t, i, v, hev⟩
  · by_cases hif : is_interface g t
    · simp [routeTargetEvents, hui, hif] at hev
      exact Or.inr ⟨t, _, i, v, hev⟩
    · simp [routeTargetEvents, hui, hif] at hev

theorem itemEvents_lifecycle_free (g : EGraph) (ty n : String) (it : String × Val)
    (m : String) :
    ∀ ev ∈ itemEvents g ty n it,
      isStartOf m ev = false ∧ isDoneOf m ev = false ∧ isErrorOf m ev = false := by
  intro ev hev
  simp only [itemEvents, List.mem_append, List.mem_flatMap, List.mem_singleton] at hev
  rcases hev with ((h1 | h1) | h1) | ⟨p, _, h1⟩
  · simp at h1
    rw [h1.2]; exact ⟨rfl, rfl, rfl⟩
  · simp at h1
    rw [h1.2]; exact ⟨rfl, rfl, rfl⟩
  · subst h1; exact ⟨rfl, rfl, rfl⟩
  · rcases routeTargetEvents_shape g p.2.dst p.2.dstInput it.2 ev h1 with
      ⟨a, b, c, rfl⟩ | ⟨a, b, c, d, rfl⟩
    · exact ⟨rfl, rfl, rfl⟩
    · exact ⟨rfl, rfl, rfl⟩

theorem flatMap_itemEvents_counts (g : EGraph) (ty n m : String)
    (items : List (String × Val)) :
    (items.flatMap (itemEvents g ty n)).countP (fun ev => isStartOf m ev) = 0 ∧
    (items.flatMap (itemEvents g ty n)).countP (fun ev => isDoneOf m ev) = 0 ∧
    (items.flatMap (itemEvents g ty n)).countP (fun ev => isErrorOf m ev) = 0 := by
  refine ⟨List.countP_eq_zero.mpr ?_, List.countP_eq_zero.mpr ?_,
    List.countP_eq_zero.mpr ?_⟩ <;>
    · intro ev hev
      rcases List.mem_flatMap.mp hev with ⟨it, _, hit⟩
      have h := itemEvents_lifecycle_free g ty n it m ev hit
      simp [h.1, h.2.1, h.2.2]

theorem routeEvents_no_sink (g : EGraph) (n b : String) (v w : Val) (m bb : String) :
    Event.terminalOutput m w ∉
      ((routeHits g n b).flatMap fun p => routeTargetEvents g p.2.dst p.2.dstInput v) ∧
    Event.logEvent m w ∉
      ((routeHits g n b).flatMap fun p => routeTargetEvents g p.2.dst p.2.dstInput v) ∧
    Event.nodeOutput m bb w ∉
      ((routeHits g n b).flatMap fun p => routeTargetEvents g p.2.dst p.2.dstInput v) := by
  refine ⟨?_, ?_, ?_⟩ <;>
  · intro hmem
    rcases List.mem_flatMap.mp hmem with ⟨p, _, hp⟩
    rcases routeTargetEvents_shape g p.2.dst p.2.dstInput v _ hp with
      ⟨a, b2, c, heq⟩ | ⟨a, b2, c, d, heq⟩ <;> exact Event.noConfusion heq

/-!
## Claim theorems
-/

/-- C10: `fire_trigger` raises `ValueError` when the node is not a
trigger, leaving all input queues and running counters unchanged (and
emitting nothing); and once `stop()` has set the flag, `fire_trigger` on
a trigger node returns without invoking the handler, emitting any event,
or changing any state. -/
theorem fire_trigger_guards (g : EGraph) (st : ExecState) (n : String) (h : PyHandler) :
    (is_trigger g n = false →
      fire_trigger g st n h =
        { state := st, events := [], deliveries := [], raisedValueError := true }) ∧
    (is_trigger g n = true → st.stopped = true →
      fire_trigger g st n h =
        { state := st, events := [], deliveries := [], raisedValueError := false }) := by
  constructor
  · intro ht; simp [fire_trigger, ht]
  · intro ht hs; simp [fire_trigger, ht, hs]

/-- Witness for `fire_trigger_guards`: the non-trigger node `u` of
`gPair` raises with untouched state; the stopped executor ignores a fire
of the trigger `t` of `gTrig`. -/
theorem fire_trigger_guards_witness :
    fire_trigger gPair (initExecState gPair) "u" (PyHandler.agen [] false) =
      { state := initExecState gPair, events := [], deliveries := [],
        raisedValueError := true } ∧
    fire_trigger gTrig
        { queues := inject_inits gTrig, running := fun _ => 0, stopped := true } "t"
        (PyHandler.agen [] false) =
      { state := { queues := inject_inits gTrig, running := fun _ => 0, stopped := true },
        events := [], deliveries := [], raisedValueError := false } :=
  ⟨(fire_trigger_guards gPair (initExecState gPair) "u" (PyHandler.agen [] false)).1
      (by decide),
   (fire_trigger_guards gTrig
      { queues := inject_inits gTrig, running := fun _ => 0, stopped := true } "t"
      (PyHandler.agen [] false)).2 (by decide) rfl⟩

/-- C6 counterexample: the claim "only otherwise does it emit
`node_output`" is false — `_handle_output` emits `node_output` for every
item unconditionally, also for a `terminal_output`-kind node (line 205 of
`core/executor.py` is not guarded by the sink-kind checks). -/
theorem handle_output_always_node_output : ¬ claimC6 := fun hc =>
  hc gPair (fun _ => []) "terminal_output" "u" "out" (Val.vInt 1) (by decide)
    (by decide)

/-- C6 amended: for each item, a terminal-output-kind node gets
`terminal_output`, a logger-kind node gets `log`, and `node_output` is
emitted for every item regardless of the node's kind (in addition to, not
instead of, the sink events). -/
theorem handle_output_event_kinds (g : EGraph) (qs : (String × String) → List Val)
    (ty n b : String) (v : Val) :
    Event.nodeOutput n b v ∈ (handle_output g qs ty n b v).2.1 ∧
    (Event.terminalOutput n v ∈ (handle_output g qs ty n b v).2.1 ↔
      OUTPUT_TYPES.contains ty = true) ∧
    (Event.logEvent n v ∈ (handle_output g qs ty n b v).2.1 ↔
      LOGGER_TYPES.contains ty = true) := by
  have hroute := routeEvents_no_sink g n b v v n b
  rw [handle_output_events_eq]
  by_cases ho : OUTPUT_TYPES.contains ty <;> by_cases hl : LOGGER_TYPES.contains ty <;>
    simp [itemEvents, ho, hl, hroute.1, hroute.2.1]

/-- C7 (code bug exhibit): the state `run()` establishes before its
initial scheduling pass holds no entry binding — `Executor.run` takes no
entry-bindings parameter and only `_inject_inits` fills queues — whereas
the spec-modelled initialization (`runInitQueuesSpec`) enqueues the bound
value `5` for `("const-1", "value")` exactly as `examples/demo.py`
expects when it calls `executor.run(entry_bindings)`. -/
theorem run_lacks_entry_bindings :
    (initExecState gConst).queues ("const-1", "value") = [] ∧
    runInitQueuesSpec gConst [(("const-1", "value"), Val.vInt 5)] ("const-1", "value") =
      [Val.vInt 5] :=
  ⟨by decide, by decide⟩

/-- C8 (code bug exhibit): `async for branch, value in spec.func(...)`
accepts only the async-generator shape yielding two-element items.  A
three-element item (as every handler in `examples/basic_nodes.py` yields)
fails tuple unpacking, so the firing ends in `node_error` and routes
nothing, while the spec's adapter (`adaptItem`) would accept it and
discard the tag; a one-shot coroutine handler likewise ends in
`node_error` without any routing. -/
theorem handler_shapes_not_normalized (g : EGraph) (st : ExecState) (n b : String)
    (v tag : Val) (rest : List RawItem) :
    unpack2 (RawItem.triple b v tag) = none ∧
    adaptItem (RawItem.triple b v tag) = some (b, v) ∧
    (run_node g st n (PyHandler.agen (RawItem.triple b v tag :: rest) false)).deliveries
      = [] ∧
    Event.nodeError n ∈
      (run_node g st n (PyHandler.agen (RawItem.triple b v tag :: rest) false)).events ∧
    (run_node g st n PyHandler.coroutine).deliveries = [] ∧
    Event.nodeError n ∈ (run_node g st n PyHandler.coroutine).events := by
  refine ⟨rfl, rfl, ?_, ?_, ?_, ?_⟩
  · rw [run_node_deliveries]
    simp [handlerOutcome, unpackPrefix, unpack2, firingDeliveries]
  · rw [run_node_events]
    simp [handlerOutcome, unpackPrefix, unpack2]
  · rw [run_node_deliveries]
    simp [handlerOutcome, firingDeliveries]
  · rw [run_node_events]
    simp [handlerOutcome]

/-- C3 counterexample: a streaming handler that yields `("out", 1)` and
then raises does append the value to the downstream queue — values
yielded before the exception are already routed when the exception
arrives, so "no value produced by that firing is appended" is false. -/
theorem failed_firing_routes_values : ¬ claimC3 := by
  intro hc
  have h := hc gPair (initExecState gPair) "u"
    (PyHandler.agen [RawItem.pair "out" (Val.vInt 1)] true) (by decide)
  exact absurd h (by decide)

/-- C3 amended: a firing whose handler raises routes exactly the values
it yielded before the exception (in yield order) and nothing after it;
beyond its own input pops, those routed values and its own `running`
decrement, it changes no queue and no other node's running counter, and
it still ends with `node_error` followed by `node_done`. -/
theorem failed_firing_localized (g : EGraph) (st : ExecState) (n : String)
    (items : List RawItem) :
    (run_node g st n (PyHandler.agen items true)).deliveries =
      firingDeliveries g n (unpackPrefix items).1 ∧
    (∀ m, m ≠ n → (run_node g st n (PyHandler.agen items true)).state.running m =
      st.running m) ∧
    (run_node g st n (PyHandler.agen items true)).state.running n = st.running n - 1 ∧
    (∀ t i, (run_node g st n (PyHandler.agen items true)).state.queues (t, i) =
      (pop_inputs g st.queues n).2 (t, i) ++
        deliveredValuesTo g n (unpackPrefix items).1 t i) ∧
    (run_node g st n (PyHandler.agen items true)).events =
      Event.nodeStart n (get_node_type g n) ::
        ((unpackPrefix items).1.flatMap (itemEvents g (get_node_type g n) n) ++
         [Event.nodeError n, Event.nodeDone n]) := by
  have houtcome1 : (handlerOutcome (PyHandler.agen items true)).1 =
      (unpackPrefix items).1 := rfl
  have houtcome2 : (handlerOutcome (PyHandler.agen items true)).2 = true := by
    simp [handlerOutcome]
  refine ⟨?_, ?_, ?_, ?_, ?_⟩
  · rw [run_node_deliveries, houtcome1]
  · intro m hm; rw [run_node_running]; simp [hm]
  · rw [run_node_running]; simp
  · intro t i; rw [run_node_queues, houtcome1]
  · rw [run_node_events, houtcome1, houtcome2]; simp

/-- Witness for `failed_firing_localized`: concrete failed firing of `u`
in `gPair`; the sink `v` keeps its running counter and the routed prefix
is exactly the pre-exception yield. -/
theorem failed_firing_localized_witness :
    (run_node gPair (initExecState gPair) "u"
        (PyHandler.agen [RawItem.pair "out" (Val.vInt 1)] true)).state.running "v" =
      (initExecState gPair).running "v" :=
  (failed_firing_localized gPair (initExecState gPair) "u"
    [RawItem.pair "out" (Val.vInt 1)]).2.1 "v" (by decide)

/-- C5: in the event trace of a single firing there is exactly one
`node_start(n)` and exactly one `node_done(n)`; `node_error(n)` appears
at most once, and only strictly between them; the trace is
`node_start`, then the per-item events, then (possibly `node_error` and)
`node_done`.  A firing initiated through `fire_trigger` (trigger node,
not stopped) emits exactly the same event sequence as a scheduled firing,
so the discipline covers both entry points.  Since an interleaved run's
trace is a merge of complete firing traces, every `node_start(n)` is
matched by exactly one `node_done(n)` in any run. -/
theorem isStartOf_start (n ty : String) : isStartOf n (Event.nodeStart n ty) = true := by
  simp [isStartOf]

theorem isStartOf_done (n m : String) : isStartOf n (Event.nodeDone m) = false := rfl

theorem isStartOf_error (n m : String) : isStartOf n (Event.nodeError m) = false := rfl

theorem isDoneOf_start (n m ty : String) : isDoneOf n (Event.nodeStart m ty) = false := rfl

theorem isDoneOf_done (n : String) : isDoneOf n (Event.nodeDone n) = true := by
  simp [isDoneOf]

theorem isDoneOf_error (n m : String) : isDoneOf n (Event.nodeError m) = false := rfl

theorem isErrorOf_start (n m ty : String) : isErrorOf n (Event.nodeStart m ty) = false := rfl

theorem isErrorOf_done (n m : String) : isErrorOf n (Event.nodeDone m) = false := rfl

theorem isErrorOf_error (n : String) : isErrorOf n (Event.nodeError n) = true := by
  simp [isErrorOf]

theorem trace_counts (n ty : String) (L : List Event) (err : Bool)
    (h1 : L.countP (fun ev => isStartOf n ev) = 0)
    (h2 : L.countP (fun ev => isDoneOf n ev) = 0)
    (h3 : L.countP (fun ev => isErrorOf n ev) = 0) :
    (Event.nodeStart n ty ::
      ((L ++ (if err then [Event.nodeError n] else [])) ++ [Event.nodeDone n])).countP
        (fun ev => isStartOf n ev) = 1 ∧
    (Event.nodeStart n ty ::
      ((L ++ (if err then [Event.nodeError n] else [])) ++ [Event.nodeDone n])).countP
        (fun ev => isDoneOf n ev) = 1 ∧
    (Event.nodeStart n ty ::
      ((L ++ (if err then [Event.nodeError n] else [])) ++ [Event.nodeDone n])).countP
        (fun ev => isErrorOf n ev) ≤ 1 ∧
    (L ++ (if err then [Event.nodeError n] else [])).countP
      (fun ev => isStartOf n ev) = 0 ∧
    (L ++ (if err then [Event.nodeError n] else [])).countP
      (fun ev => isDoneOf n ev) = 0 ∧
    (L ++ (if err then [Event.nodeError n] else [])).countP
      (fun ev => isErrorOf n ev) ≤ 1 := by
  cases err <;>
    simp [List.countP_cons, List.countP_append, List.countP_nil, h1, h2, h3,
      isStartOf_start, isStartOf_done, isStartOf_error,
      isDoneOf_start, isDoneOf_done, isDoneOf_error,
      isErrorOf_start, isErrorOf_done, isErrorOf_error]

theorem firing_event_discipline (g : EGraph) (st : ExecState) (n : String)
    (h : PyHandler) :
    ((run_node g st n h).events.countP (fun ev => isStartOf n ev) = 1 ∧
     (run_node g st n h).events.countP (fun ev => isDoneOf n ev) = 1 ∧
     (run_node g st n h).events.countP (fun ev => isErrorOf n ev) ≤ 1 ∧
     ∃ mid, (run_node g st n h).events =
         Event.nodeStart n (get_node_type g n) :: (mid ++ [Event.nodeDone n]) ∧
       mid.countP (fun ev => isStartOf n ev) = 0 ∧
       mid.countP (fun ev => isDoneOf n ev) = 0 ∧
       mid.countP (fun ev => isErrorOf n ev) ≤ 1) ∧
    (is_trigger g n = true → st.stopped = false →
      (fire_trigger g st n h).events = (run_node g st n h).events) := by
  have hev := run_node_events g st n h
  have hcounts := flatMap_itemEvents_counts g (get_node_type g n) n n (handlerOutcome h).1
  have htc := trace_counts n (get_node_type g n)
    ((handlerOutcome h).1.flatMap (itemEvents g (get_node_type g n) n))
    (handlerOutcome h).2 hcounts.1 hcounts.2.1 hcounts.2.2
  constructor
  · refine ⟨?_, ?_, ?_,
      ⟨(handlerOutcome h).1.flatMap (itemEvents g (get_node_type g n) n) ++
         (if (handlerOutcome h).2 then [Event.nodeError n] else []), ?_, ?_, ?_, ?_⟩⟩
    · rw [hev]; exact htc.1
    · rw [hev]; exact htc.2.1
    · rw [hev]; exact htc.2.2.1
    · rw [hev]
    · exact htc.2.2.2.1
    · exact htc.2.2.2.2.1
    · exact htc.2.2.2.2.2
  · intro ht hs
    rw [fire_trigger_events g st n h ht hs, hev]

/-- Witness for `firing_event_discipline`: firing the trigger `t` of
`gTrig` produces the same trace as a scheduled firing of it would. -/
theorem firing_event_discipline_witness :
    (fire_trigger gTrig (initExecState gTrig) "t" (PyHandler.agen [] false)).events =
      (run_node gTrig (initExecState gTrig) "t" (PyHandler.agen [] false)).events :=
  (firing_event_discipline gTrig (initExecState gTrig) "t"
    (PyHandler.agen [] false)).2 (by decide) rfl

theorem all_inputs_ready_iff (g : EGraph) (st : ExecState) (n : String) (s : NodeSpec)
    (hs : g.spec? n = some s) :
    all_inputs_ready g st n = true ↔
      ∀ p ∈ s.inputs,
        (has_incoming_edge g n p.1 = true → st.queues (n, p.1) ≠ []) ∧
        (has_incoming_edge g n p.1 = false →
          st.queues (n, p.1) ≠ [] ∨ p.2.default ≠ none) := by
  simp only [all_inputs_ready, hs, List.all_eq_true]
  refine forall_congr' fun p => imp_congr_right fun _ => ?_
  by_cases hc : has_incoming_edge g n p.1 <;>
    simp [hc, List.isEmpty_iff, Option.isSome_iff_ne_none]

theorem downstream_queues_empty_iff (g : EGraph) (st : ExecState) (n : String)
    (hwf : ∀ e ∈ g.edges, e.dstInput ≠ "") :
    downstream_queues_empty g st n = true ↔
      ∀ e ∈ g.edges, e.src = n → st.queues (e.dst, e.dstInput) = [] := by
  rw [downstream_queues_empty, List.all_eq_true]
  refine forall_congr' fun e => imp_congr_right fun he => ?_
  by_cases hsrc : e.src == n
  · have heq : e.src = n := by simpa using hsrc
    simp [hsrc, heq, hwf e he, List.isEmpty_iff]
  · have hne : ¬(e.src = n) := by simpa using hsrc
    simp [hsrc, hne]

/-- C2: the readiness predicate, characterized.  For a non-trigger node
`n` with spec `s`, `_is_ready` holds exactly when: its running count is
0; every input with at least one inbound edge has a non-empty queue;
every input with no inbound edge has a non-empty queue or a non-`None`
default; and, if the node has no inbound edges at all, every downstream
input queue it feeds is empty.  A trigger node is never ready.  (The
well-formedness hypothesis `hwf` excludes the degenerate empty-string
input name, which Python's falsiness test on `dst_input` would skip.) -/
theorem is_ready_characterization (g : EGraph) (st : ExecState) (n : String)
    (s : NodeSpec) (hs : g.spec? n = some s)
    (hwf : ∀ e ∈ g.edges, e.dstInput ≠ "") :
    (is_trigger g n = true → is_ready g st n = false) ∧
    (is_trigger g n = false →
      (is_ready g st n = true ↔
        st.running n = 0 ∧
        (∀ p ∈ s.inputs,
          (has_incoming_edge g n p.1 = true → st.queues (n, p.1) ≠ []) ∧
          (has_incoming_edge g n p.1 = false →
            st.queues (n, p.1) ≠ [] ∨ p.2.default ≠ none)) ∧
        (has_any_incoming_edge g n = false →
          ∀ e ∈ g.edges, e.src = n → st.queues (e.dst, e.dstInput) = []))) := by
  constructor
  · intro ht
    by_cases hr : st.running n > 0 <;> simp [is_ready, hr, ht]
  · intro ht
    by_cases hr : st.running n > 0
    · have h0 : ¬(st.running n = 0) := by omega
      simp [is_ready, hr, h0]
    · have h0 : st.running n = 0 := by omega
      by_cases ha : has_any_incoming_edge g n
      · simp [is_ready, hr, ht, ha, h0, all_inputs_ready_iff g st n s hs]
      · by_cases hd : downstream_queues_empty g st n
        · have hdp := (downstream_queues_empty_iff g st n hwf).mp hd
          simp [is_ready, hr, ht, ha, hd, h0,
            all_inputs_ready_iff g st n s hs, hdp]
          exact fun _ => hdp
        · have hdp : ¬∀ e ∈ g.edges, e.src = n → st.queues (e.dst, e.dstInput) = [] :=
            fun hp => hd ((downstream_queues_empty_iff g st n hwf).mpr hp)
          simp [is_ready, hr, ht, ha, hd, h0, hdp]

/-- Witness for `is_ready_characterization`: the trigger node `t` of
`gTrig` is never selected by the readiness predicate. -/
theorem is_ready_characterization_witness :
    is_ready gTrig (initExecState gTrig) "t" = false :=
  (is_ready_characterization gTrig (initExecState gTrig) "t" trigSpec rfl
    (by intro e he; cases he)).1 (by decide)

theorem deliveriesVia_append (k : Nat) (l1 l2 : List (Nat × Val)) :
    deliveriesVia k (l1 ++ l2) = deliveriesVia k l1 ++ deliveriesVia k l2 := by
  simp [deliveriesVia, List.filterMap_append]

theorem deliveriesVia_cons (k i : Nat) (v : Val) (l : List (Nat × Val)) :
    deliveriesVia k ((i, v) :: l) =
      (if i = k then [v] else []) ++ deliveriesVia k l := by
  by_cases h : i = k <;> simp [deliveriesVia, List.filterMap_cons, h]

theorem deliveriesVia_high (v : Val) (pred : Edge → Bool) (l : List Edge) :
    ∀ (j k : Nat), k < j →
      deliveriesVia k
        (((l.enumFrom j).filter fun p => pred p.2).map fun p => (p.1, v)) = [] := by
  induction l with
  | nil => intro j k hk; simp [deliveriesVia]
  | cons x rest ih =>
    intro j k hk
    rw [List.enumFrom_cons]
    by_cases hp : pred x
    · simp only [List.filter_cons, hp, if_true, List.map_cons, deliveriesVia_cons]
      have hne : ¬(j = k) := by omega
      simp only [hne, if_false, List.nil_append]
      exact ih (j + 1) k (by omega)
    · simp only [List.filter_cons, hp]
      simp only [Bool.false_eq_true, if_false]
      exact ih (j + 1) k (by omega)

theorem deliveriesVia_enumFrom (v : Val) (pred : Edge → Bool) (l : List Edge) :
    ∀ (j k : Nat) (e : Edge), l.get? k = some e →
      deliveriesVia (j + k)
        (((l.enumFrom j).filter fun p => pred p.2).map fun p => (p.1, v)) =
      if pred e then [v] else [] := by
  induction l with
  | nil => intro j k e he; simp at he
  | cons x rest ih =>
    intro j k e he
    rw [List.enumFrom_cons]
    cases k with
    | zero =>
      have hx : x = e := by simpa using he
      subst hx
      by_cases hp : pred x
      · simp only [List.filter_cons, hp, if_true, List.map_cons, deliveriesVia_cons]
        have hj : j + 0 = j := by omega
        rw [hj]
        simp only [if_pos rfl]
        rw [deliveriesVia_high v pred rest (j + 1) j (by omega)]
        simp
      · simp only [List.filter_cons, hp]
        simp only [Bool.false_eq_true, if_false]
        have hj : j + 0 = j := by omega
        rw [hj, deliveriesVia_high v pred rest (j + 1) j (by omega)]
    | succ k2 =>
      have he2 : rest.get? k2 = some e := by simpa using he
      have harith : j + (k2 + 1) = (j + 1) + k2 := by omega
      by_cases hp : pred x
      · simp only [List.filter_cons, hp, if_true, List.map_cons, deliveriesVia_cons]
        have hne : ¬(j = j + (k2 + 1)) := by omega
        simp only [hne, if_false, List.nil_append]
        rw [harith]
        exact ih (j + 1) k2 e he2
      · simp only [List.filter_cons, hp]
        simp only [Bool.false_eq_true, if_false]
        rw [harith]
        exact ih (j + 1) k2 e he2

theorem deliveriesVia_itemDeliveries (g : EGraph) (k : Nat) (e : Edge)
    (he : g.edges.get? k = some e) (n : String) (it : String × Val) :
    deliveriesVia k (itemDeliveries g n it) =
      if e.src == n && e.srcBranch == it.1 then [it.2] else [] := by
  have h := deliveriesVia_enumFrom it.2
    (fun e2 => e2.src == n && e2.srcBranch == it.1) g.edges 0 k e he
  simpa [itemDeliveries, routeHits, List.enum] using h

theorem deliveriesVia_firing (g : EGraph) (k : Nat) (e : Edge)
    (he : g.edges.get? k = some e) (n : String) (items : List (String × Val)) :
    deliveriesVia k (firingDeliveries g n items) =
      ((items.filter fun it => e.src == n && e.srcBranch == it.1).map (·.2)) := by
  induction items with
  | nil => simp [firingDeliveries, deliveriesVia]
  | cons it rest ih =>
    simp only [firingDeliveries, List.flatMap_cons] at ih ⊢
    rw [deliveriesVia_append, deliveriesVia_itemDeliveries g k e he, List.filter_cons]
    by_cases hp : (e.src == n && e.srcBranch == it.1) = true <;> simp [hp, ih]

/-- C4: for the inbound edge at position `k` of the edge list, going from
`u := e.src` on branch `e.srcBranch` into `(e.dst, e.dstInput)`, the
sequence of values delivered over that edge across a list of firings of
`u` (concatenated in firing order — firings of one node are serialized)
is exactly, in order, the subsequence of the values `u` yielded on that
branch across those firings; and each firing's own delivery log is the
in-yield-order routing of the items it consumed (`firingDeliveries`), so
items are routed in yield order within one firing. -/
theorem edge_delivery_order (g : EGraph) (k : Nat) (e : Edge)
    (he : g.edges.get? k = some e)
    (outcomes : List (List (String × Val))) :
    deliveriesVia k (outcomes.flatMap (firingDeliveries g e.src)) =
      ((outcomes.flatMap id).filter fun it => e.srcBranch == it.1).map (·.2) ∧
    ∀ st h, (run_node g st e.src h).deliveries =
      firingDeliveries g e.src (handlerOutcome h).1 := by
  constructor
  · induction outcomes with
    | nil => simp [deliveriesVia]
    | cons c rest ih =>
      rw [List.flatMap_cons, deliveriesVia_append,
        deliveriesVia_firing g k e he e.src c, List.flatMap_cons,
        List.filter_append, List.map_append, ih]
      simp
  · intro st h
    exact run_node_deliveries g st e.src h

/-- Witness for `edge_delivery_order`: over two firings of `u` in
`gPair`, the edge at index 0 delivers exactly the values yielded on
branch `out`, in order. -/
theorem edge_delivery_order_witness :
    deliveriesVia 0
      ([[("out", Val.vInt 1), ("zzz", Val.vInt 2)], [("out", Val.vInt 3)]].flatMap
        (firingDeliveries gPair "u")) =
      (([[("out", Val.vInt 1), ("zzz", Val.vInt 2)], [("out", Val.vInt 3)]].flatMap
          id).filter fun it => "out" == it.1).map (·.2) :=
  (edge_delivery_order gPair 0
    { src := "u", dst := "v", srcBranch := "out", dstInput := "value" } rfl
    [[("out", Val.vInt 1), ("zzz", Val.vInt 2)], [("out", Val.vInt 3)]]).1

theorem is_ready_running_zero (g : EGraph) (st : ExecState) (n : String)
    (h : is_ready g st n = true) : st.running n = 0 := by
  by_cases hr : st.running n > 0
  · simp [is_ready, hr] at h
  · omega

theorem mem_get_ready_nodes (g : EGraph) (st : ExecState) (n : String)
    (h : n ∈ get_ready_nodes g st) : is_ready g st n = true :=
  (List.mem_filter.mp h).2

theorem get_ready_nodes_nodup (g : EGraph) (st : ExecState)
    (hnd : (g.nodes.map (·.1)).Nodup) : (get_ready_nodes g st).Nodup :=
  hnd.filter _

theorem runningInv_init (g : EGraph) : RunningInv g ⟨initExecState g, []⟩ := by
  constructor
  · intro n; simp [initExecState]
  · intro n _; simp

theorem runningInv_preserved (g : EGraph) (hnd : (g.nodes.map (·.1)).Nodup)
    {s s2 : SysState} (hstep : SysStep g s s2) (hinv : RunningInv g s) :
    RunningInv g s2 := by
  obtain ⟨hcount, hle⟩ := hinv
  cases hstep with
  | schedule =>
    rw [schedule_ready]
    by_cases hstop : s.exec.stopped
    · simp only [hstop, if_true]
      exact ⟨hcount, hle⟩
    · simp only [hstop, Bool.false_eq_true, if_false]
      constructor
      · intro n
        simp only [List.count_append]
        by_cases hmem : n ∈ get_ready_nodes g s.exec
        · have h1 : (get_ready_nodes g s.exec).count n = 1 :=
            List.count_eq_one_of_mem (get_ready_nodes_nodup g s.exec hnd) hmem
          simp [hmem, hcount n, h1]
        · have h0 : (get_ready_nodes g s.exec).count n = 0 :=
            List.count_eq_zero_of_not_mem hmem
          simp [hmem, hcount n, h0]
      · intro n hnt
        simp only [List.count_append]
        by_cases hmem : n ∈ get_ready_nodes g s.exec
        · have hz := is_ready_running_zero g s.exec n
            (mem_get_ready_nodes g s.exec n hmem)
          have h1 : (get_ready_nodes g s.exec).count n = 1 :=
            List.count_eq_one_of_mem (get_ready_nodes_nodup g s.exec hnd) hmem
          have h0 : s.tasks.count n = 0 := by rw [← hcount n]; exact hz
          omega
        · have h0 : (get_ready_nodes g s.exec).count n = 0 :=
            List.count_eq_zero_of_not_mem hmem
          have := hle n hnt
          omega
  | triggerStart n htrig hstop =>
    constructor
    · intro m
      by_cases hm : m = n
      · subst hm
        simp [List.count_append, List.count_cons, hcount m]
      · simp [List.count_append, List.count_cons, hm, Ne.symm hm, hcount m]
    · intro m hmt
      have hm : m ≠ n := by
        intro hh; rw [hh, htrig] at hmt; cases hmt
      have := hle m hmt
      simp only [List.count_append, List.count_cons, List.count_nil]
      simp [hm, Ne.symm hm]
      omega
  | taskPop n hmem => exact ⟨hcount, hle⟩
  | taskRoute n branch v hmem => exact ⟨hcount, hle⟩
  | taskFinish n hmem =>
    constructor
    · intro m
      by_cases hm : m = n
      · subst hm
        simp [List.count_erase_self, hcount m]
      · simp only [hm, if_false]
        rw [List.count_erase_of_ne hm, hcount m]
    · intro m hmt
      by_cases hm : m = n
      · subst hm
        rw [List.count_erase_self]
        have := hle m hmt
        omega
      · rw [List.count_erase_of_ne hm]
        exact hle m hmt
  | stopFlag => exact ⟨hcount, hle⟩

theorem reachable_runningInv (g : EGraph) (hnd : (g.nodes.map (·.1)).Nodup)
    (s : SysState) (hr : Reachable g s) : RunningInv g s := by
  have hr2 : Relation.ReflTransGen (SysStep g) ⟨initExecState g, []⟩ s := hr
  clear hr
  induction hr2 with
  | refl => exact runningInv_init g
  | tail hsteps hstep ih => exact runningInv_preserved g hnd hstep ih

/-- C1 amended: in every reachable state of a run, every **non-trigger**
node's `running` counter is 0 or 1 — the readiness scan only schedules a
node whose counter is 0 and increments before handing the task to the
runtime.  Trigger nodes are exempt: `fire_trigger` increments without any
guard, so overlapping `fire_trigger` calls push a trigger's counter past
1 (see the counterexample). -/
theorem nontrigger_running_le_one (g : EGraph)
    (hnd : (g.nodes.map (·.1)).Nodup) (s : SysState) (hr : Reachable g s)
    (n : String) (ht : is_trigger g n = false) :
    s.exec.running n = 0 ∨ s.exec.running n = 1 := by
  have hinv := reachable_runningInv g hnd s hr
  have h1 := hinv.1 n
  have h2 := hinv.2 n ht
  omega

/-- Witness for `nontrigger_running_le_one` at the initial state of
`gPair` and its non-trigger node `u`. -/
theorem nontrigger_running_le_one_witness :
    (⟨initExecState gPair, []⟩ : SysState).exec.running "u" = 0 ∨
    (⟨initExecState gPair, []⟩ : SysState).exec.running "u" = 1 :=
  nontrigger_running_le_one gPair (by decide) ⟨initExecState gPair, []⟩
    Relation.ReflTransGen.refl "u" (by decide)

/-- C1 counterexample: on the valid single-trigger graph `gTrig`, two
overlapping `fire_trigger("t", ...)` calls both execute the unguarded
increment before either finishes (each suspends at the `await` points
that follow it; the repository's own `test_even_odd.py` drives the same
trigger concurrently via `asyncio.gather`), reaching a state with
`running["t"] = 2`.  So the claim that `running[n] ∈ {0, 1}` for *every*
node, triggers included, is false. -/
theorem trigger_running_reaches_two :
    (¬ claimC1) ∧ validate_graph gTrigB [] = Except.ok [] := by
  constructor
  · intro hc
    have h1 : SysStep gTrig ⟨initExecState gTrig, []⟩
        (triggerBump ⟨initExecState gTrig, []⟩ "t") :=
      SysStep.triggerStart ⟨initExecState gTrig, []⟩ "t" (by decide) rfl
    have h2 : SysStep gTrig (triggerBump ⟨initExecState gTrig, []⟩ "t")
        (triggerBump (triggerBump ⟨initExecState gTrig, []⟩ "t") "t") :=
      SysStep.triggerStart (triggerBump ⟨initExecState gTrig, []⟩ "t") "t"
        (by decide) rfl
    have hreach : Reachable gTrig
        (triggerBump (triggerBump ⟨initExecState gTrig, []⟩ "t") "t") :=
      Relation.ReflTransGen.tail (Relation.ReflTransGen.tail .refl h1) h2
    have hval := hc _ hreach "t"
    have h2v : (triggerBump (triggerBump ⟨initExecState gTrig, []⟩ "t") "t").exec.running
        "t" = 2 := by
      simp [triggerBump, initExecState]
    rw [h2v] at hval
    rcases hval with hv | hv <;> cases hv
  · rfl

theorem specB_isSome_of_mem (g : BGraph) (hspec : ∀ p ∈ g.nodes, p.2.isSome = true)
    (n : String) (hn : n ∈ nodeNamesB g) : (g.spec? n).isSome = true := by
  obtain ⟨p, hp, hpn⟩ := List.mem_map.mp hn
  have hfind : (g.nodes.find? fun q => q.1 == n).isSome := by
    rw [List.find?_isSome]
    exact ⟨p, hp, by simp [hpn]⟩
  obtain ⟨q, hq⟩ := Option.isSome_iff_exists.mp hfind
  have hqmem := List.mem_of_find?_eq_some hq
  have hq2 := hspec q hqmem
  simpa [BGraph.spec?, hq] using hq2

theorem validateEdgesGo_ok (g : BGraph) (l : List Edge)
    (h : ∀ e ∈ l, (g.spec? e.src).isSome = true ∧ (g.spec? e.dst).isSome = true) :
    ∀ errs, ∃ out, validateEdgesGo g l errs = Except.ok (errs ++ out) ∧
      out.length ≤ l.length := by
  induction l with
  | nil => intro errs; exact ⟨[], by simp [validateEdgesGo], by simp⟩
  | cons e rest ih =>
    intro errs
    obtain ⟨ss, hss⟩ := Option.isSome_iff_exists.mp (h e (by simp)).1
    obtain ⟨ds, hds⟩ := Option.isSome_iff_exists.mp (h e (by simp)).2
    have ih2 := ih fun e2 he2 => h e2 (by simp [he2])
    cases hce : checkEdge ss ds e with
    | some err =>
      obtain ⟨out, hout, hlen⟩ := ih2 (errs ++ [err])
      refine ⟨err :: out, ?_, by simp; omega⟩
      simp only [validateEdgesGo, hss, hds, hce]
      rw [hout]
      simp
    | none =>
      obtain ⟨out, hout, hlen⟩ := ih2 errs
      refine ⟨out, ?_, by simp; omega⟩
      simp only [validateEdgesGo, hss, hds, hce]
      exact hout

theorem validateCoverageGo_ok (g : BGraph) (eb : List (String × String))
    (l : List (String × Option NodeSpec)) (h : ∀ p ∈ l, p.2.isSome = true) :
    ∀ errs, ∃ out, validateCoverageGo g eb l errs = Except.ok (errs ++ out) := by
  induction l with
  | nil => intro errs; exact ⟨[], by simp [validateCoverageGo]⟩
  | cons p rest ih =>
    intro errs
    obtain ⟨sp, hsp⟩ := Option.isSome_iff_exists.mp (h p (by simp))
    have ih2 := ih fun p2 hp2 => h p2 (by simp [hp2])
    obtain ⟨out, hout⟩ := ih2 (errs ++ coverageErrorsForNode g eb p.1 sp)
    refine ⟨coverageErrorsForNode g eb p.1 sp ++ out, ?_⟩
    simp only [validateCoverageGo, hsp]
    rw [hout]
    simp

theorem sccHasStarter_ok (g : BGraph) (eb : List (String × String)) (scc : List String)
    (h : ∀ n ∈ scc, (g.spec? n).isSome = true) :
    ∃ b, sccHasStarter g eb scc = Except.ok b := by
  induction scc with
  | nil => exact ⟨false, rfl⟩
  | cons n rest ih =>
    obtain ⟨sp, hsp⟩ := Option.isSome_iff_exists.mp (h n (by simp))
    by_cases hstart : (sp.inputs.any fun p => p.2.init.isSome || eb.contains (n, p.1)) = true
    · exact ⟨true, by simp only [sccHasStarter, hsp, hstart, if_true]⟩
    · obtain ⟨b, hb⟩ := ih fun n2 hn2 => h n2 (by simp [hn2])
      exact ⟨b, by simp only [sccHasStarter, hsp, hstart, Bool.false_eq_true, if_false]; exact hb⟩

theorem mem_sccOf_names (g : BGraph) (n m : String) (hm : m ∈ sccOf g n) :
    m ∈ nodeNamesB g :=
  (List.mem_filter.mp hm).1

theorem validateCyclesGo_ok (g : BGraph) (eb : List (String × String))
    (reps : List String)
    (h : ∀ n ∈ reps, ∀ m ∈ sccOf g n, (g.spec? m).isSome = true) :
    ∀ errs, ∃ out, validateCyclesGo g eb reps errs = Except.ok (errs ++ out) := by
  induction reps with
  | nil => intro errs; exact ⟨[], by simp [validateCyclesGo]⟩
  | cons n rest ih =>
    intro errs
    have ih2 := ih fun n2 h2 m hm => h n2 (by simp [h2]) m hm
    by_cases hlen : (sccOf g n).length ≤ 1
    · obtain ⟨out, hout⟩ := ih2 errs
      exact ⟨out, by simp only [validateCyclesGo, hlen, if_true]; exact hout⟩
    · obtain ⟨b, hb⟩ := sccHasStarter_ok g eb (sccOf g n) (h n (by simp))
      cases b with
      | true =>
        obtain ⟨out, hout⟩ := ih2 errs
        exact ⟨out, by simp only [validateCyclesGo, hlen, if_false, hb]; exact hout⟩
      | false =>
        obtain ⟨out, hout⟩ := ih2 (errs ++ [VErr.cycleNoStarter (sccOf g n)])
        refine ⟨VErr.cycleNoStarter (sccOf g n) :: out, ?_⟩
        simp only [validateCyclesGo, hlen, if_false, hb]
        rw [hout]
        simp

/-- C9 counterexample: `validate_graph` does raise.  For the edge
`u --out/value--> ghost` whose target node is not among the given nodes,
`build_graph` (via networkx `add_edge`) auto-creates a spec-less `ghost`
node, and `validate_graph`'s `g.nodes[v]["spec"]` raises `KeyError`
instead of returning an endpoint-existence error. -/
theorem validate_raises_on_missing_endpoint : ¬ claimC9 := by
  intro hc
  obtain ⟨errs, herrs⟩ := hc [uSpec] [ghostEdge] []
  have h2 : (Except.error () : Except Unit (List VErr)) = Except.ok errs :=
    (show validate_graph (build_graph [uSpec] [ghostEdge]) [] = Except.error ()
      from rfl).symm.trans herrs
  exact Except.noConfusion h2

/-- C9 amended: on a built graph all of whose nodes carry specs (every
edge endpoint exists among the given nodes), `validate_graph` returns
the error list without raising, as the concatenation edge-checks ++
input-coverage ++ cycle-starter, in that order; per edge, source-branch
existence is checked first and target-input existence second, each
pre-empting the type-compatibility check (at most one error per edge).
When an edge endpoint's node has no spec, `validate_graph` instead
raises `KeyError` (see the counterexample). -/
theorem validate_graph_checks_in_order (g : BGraph) (eb : List (String × String))
    (hspec : ∀ p ∈ g.nodes, p.2.isSome = true)
    (hends : ∀ e ∈ g.edges, e.src ∈ nodeNamesB g ∧ e.dst ∈ nodeNamesB g) :
    (∃ e1 e2 e3, validateEdges g = Except.ok e1 ∧
       validateCoverage g eb = Except.ok e2 ∧
       validateCycles g eb = Except.ok e3 ∧
       validate_graph g eb = Except.ok (e1 ++ e2 ++ e3) ∧
       e1.length ≤ g.edges.length) ∧
    (∀ ss ds e, (ss.outputs.any fun p => p.1 == e.srcBranch) = false →
       checkEdge ss ds e = some (VErr.branchMissing e.src e.dst e.srcBranch)) ∧
    (∀ ss ds e, (ss.outputs.any fun p => p.1 == e.srcBranch) = true →
       (ds.inputs.any fun p => p.1 == e.dstInput) = false →
       checkEdge ss ds e = some (VErr.inputMissing e.src e.dst e.dstInput)) := by
  refine ⟨?_, ?_, ?_⟩
  · obtain ⟨e1, he1, hlen⟩ := validateEdgesGo_ok g g.edges
      (fun e he => ⟨specB_isSome_of_mem g hspec e.src (hends e he).1,
                    specB_isSome_of_mem g hspec e.dst (hends e he).2⟩) []
    obtain ⟨e2, he2⟩ := validateCoverageGo_ok g eb g.nodes hspec []
    obtain ⟨e3, he3⟩ := validateCyclesGo_ok g eb (sccReps g)
      (fun n _ m hm => specB_isSome_of_mem g hspec m (mem_sccOf_names g n m hm)) []
    simp only [List.nil_append] at he1 he2 he3
    refine ⟨e1, e2, e3, he1, he2, he3, ?_, hlen⟩
    rw [validate_graph]
    rw [show validateEdges g = Except.ok e1 from he1,
        show validateCoverage g eb = Except.ok e2 from he2,
        show validateCycles g eb = Except.ok e3 from he3]
    rfl
  · intro ss ds e hbr
    simp [checkEdge, hbr]
  · intro ss ds e hbr hinp
    simp [checkEdge, hbr, hinp]

/-- Witness for `validate_graph_checks_in_order`: on the validated
two-node graph, an edge sourced at the output-less sink `v` yields the
branch-existence error (no type check is reached). -/
theorem validate_graph_checks_in_order_witness :
    checkEdge vSpec uSpec
      { src := "v", dst := "u", srcBranch := "zzz", dstInput := "value" } =
      some (VErr.branchMissing "v" "u" "zzz") :=
  (validate_graph_checks_in_order gPairB [("u", "value")] (by decide)
    (by decide)).2.1 vSpec uSpec
    { src := "v", dst := "u", srcBranch := "zzz", dstInput := "value" } (by decide)

end DataflowEngine

